import Mathlib

/-!
Shallow embedding of the QR-code file-transfer sender
(modules `core/file_processor.py`, `core/qr_generator.py`,
`core/transmission.py`) and proofs about the claims of the
specification.  Bytes are modelled as `Nat` values below 256,
text payloads as `List Char`, and the timer-driven transmission
loop as an explicit step function on a state record.
-/

namespace QrTransfer

/-! ## Base64 text encoding (`base64.b64encode` / `b64decode` as used by
`FileProcessor.process_file`). -/

/-- The standard base64 alphabet. -/
def b64Table : List Char :=
  "ABCDEFGHIJKLMNOPQRSTUVWXYZabcdefghijklmnopqrstuvwxyz0123456789+/".toList

/-- Character for a 6-bit group. -/
def b64Char (n : Nat) : Char := b64Table.getD n '?'

/-- Index of a character in the base64 alphabet. -/
def b64IndexOf (c : Char) : Nat := b64Table.indexOf c

/-- Base64 encoding of a byte list (bytes are `Nat` values `< 256`),
including `=` padding, as `base64.b64encode` produces. -/
def b64Encode : List Nat → List Char
  | a :: b :: c :: rest =>
      b64Char (a / 4) :: b64Char (a % 4 * 16 + b / 16) ::
      b64Char (b % 16 * 4 + c / 64) :: b64Char (c % 64) :: b64Encode rest
  | [a, b] => [b64Char (a / 4), b64Char (a % 4 * 16 + b / 16), b64Char (b % 16 * 4), '=']
  | [a] => [b64Char (a / 4), b64Char (a % 4 * 16), '=', '=']
  | [] => []

/-- Base64 decoding (`base64.b64decode` on well-formed input). -/
def b64Decode : List Char → List Nat
  | c1 :: c2 :: c3 :: c4 :: rest =>
      if c3 = '=' then
        [b64IndexOf c1 * 4 + b64IndexOf c2 / 16]
      else if c4 = '=' then
        [b64IndexOf c1 * 4 + b64IndexOf c2 / 16,
         b64IndexOf c2 % 16 * 16 + b64IndexOf c3 / 4]
      else
        (b64IndexOf c1 * 4 + b64IndexOf c2 / 16) ::
        (b64IndexOf c2 % 16 * 16 + b64IndexOf c3 / 4) ::
        (b64IndexOf c3 % 4 * 64 + b64IndexOf c4) :: b64Decode rest
  | _ => []

theorem b64IndexOf_b64Char : ∀ n : Fin 64, b64IndexOf (b64Char n.val) = n.val := by decide

theorem b64Char_ne_eq : ∀ n : Fin 64, b64Char n.val ≠ '=' := by decide

theorem b64IndexOf_b64Char_of_lt {n : Nat} (h : n < 64) : b64IndexOf (b64Char n) = n :=
  b64IndexOf_b64Char ⟨n, h⟩

theorem b64Char_ne_eq_of_lt {n : Nat} (h : n < 64) : b64Char n ≠ '=' :=
  b64Char_ne_eq ⟨n, h⟩

/-- Round trip of the base64 text encoding on byte lists. -/
theorem b64Decode_b64Encode (bs : List Nat) (hb : ∀ x ∈ bs, x < 256) :
    b64Decode (b64Encode bs) = bs := by
  induction bs using b64Encode.induct with
  | case1 a b c rest ih =>
      have ha : a < 256 := hb a (by simp)
      have hbb : b < 256 := hb b (by simp)
      have hc : c < 256 := hb c (by simp)
      have h3 : b % 16 * 4 + c / 64 < 64 := by omega
      have h4 : c % 64 < 64 := by omega
      rw [b64Encode, b64Decode]
      rw [if_neg (b64Char_ne_eq_of_lt h3), if_neg (b64Char_ne_eq_of_lt h4)]
      rw [b64IndexOf_b64Char_of_lt (by omega : a / 4 < 64),
          b64IndexOf_b64Char_of_lt (by omega : a % 4 * 16 + b / 16 < 64),
          b64IndexOf_b64Char_of_lt h3, b64IndexOf_b64Char_of_lt h4,
          ih (fun x hx => hb x (by simp [hx]))]
      have : a / 4 * 4 + (a % 4 * 16 + b / 16) / 16 = a := by omega
      have : (a % 4 * 16 + b / 16) % 16 * 16 + (b % 16 * 4 + c / 64) / 4 = b := by omega
      have : (b % 16 * 4 + c / 64) % 4 * 64 + c % 64 = c := by omega
      simp only [List.cons.injEq]
      refine ⟨by omega, by omega, by omega, trivial⟩
  | case2 a b =>
      have ha : a < 256 := hb a (by simp)
      have hbb : b < 256 := hb b (by simp)
      have h3 : b % 16 * 4 < 64 := by omega
      rw [b64Encode, b64Decode]
      rw [if_neg (b64Char_ne_eq_of_lt h3), if_pos rfl]
      rw [b64IndexOf_b64Char_of_lt (by omega : a / 4 < 64),
          b64IndexOf_b64Char_of_lt (by omega : a % 4 * 16 + b / 16 < 64),
          b64IndexOf_b64Char_of_lt h3]
      simp only [List.cons.injEq]
      refine ⟨by omega, by omega, trivial⟩
  | case3 a =>
      have ha : a < 256 := hb a (by simp)
      rw [b64Encode, b64Decode]
      rw [if_pos rfl]
      rw [b64IndexOf_b64Char_of_lt (by omega : a / 4 < 64),
          b64IndexOf_b64Char_of_lt (by omega : a % 4 * 16 < 64)]
      simp only [List.cons.injEq]
      refine ⟨by omega, trivial⟩
  | case4 => rfl

/-! ## Segmenter (`FileProcessor.process_file`, `core/file_processor.py`). -/

/-- One slice per iteration of the chunk loop of `process_file`
(`for i in range(0, len(encoded_data), chunk_size)`), driven by a fuel
argument so the recursion is structural; `chunkLoop` below supplies enough
fuel for the whole input. -/
def chunkLoopGo (cs : Nat) : Nat → List Char → List (List Char)
  | fuel + 1, c :: rest => ((c :: rest).take cs) :: chunkLoopGo cs fuel ((c :: rest).drop cs)
  | _, _ => []

/-- The chunk-splitting loop of `process_file`:
`chunks.append(encoded_data[i:i+chunk_size])` for `i = 0, cs, 2·cs, …`.
A `chunk_size` of zero makes the Python `range` raise, so it is mapped to
the empty result (the caller returns `None` in that case). -/
def chunkLoop (cs : Nat) (s : List Char) : List (List Char) :=
  if cs = 0 then [] else chunkLoopGo cs s.length s

theorem chunkLoopGo_join (cs : Nat) (hcs : 0 < cs) :
    ∀ fuel s, s.length ≤ fuel → (chunkLoopGo cs fuel s).flatten = s := by
  intro fuel
  induction fuel with
  | zero =>
      intro s hs
      have : s = [] := List.length_eq_zero.mp (by omega)
      simp [this, chunkLoopGo]
  | succ n ih =>
      intro s hs
      match s with
      | [] => simp [chunkLoopGo]
      | c :: rest =>
          rw [chunkLoopGo, List.flatten_cons,
            ih _ (by simp only [List.length_drop, List.length_cons] at hs ⊢; omega),
            List.take_append_drop]

theorem chunkLoop_join (cs : Nat) (hcs : 0 < cs) (s : List Char) :
    (chunkLoop cs s).flatten = s := by
  rw [chunkLoop, if_neg (by omega)]
  exact chunkLoopGo_join cs hcs s.length s le_rfl

theorem chunkLoopGo_ne_nil_length (cs fuel : Nat) (s : List Char)
    (h : chunkLoopGo cs fuel s ≠ []) : 0 < fuel ∧ 0 < s.length := by
  match fuel, s with
  | 0, _ => exact absurd rfl h
  | _ + 1, [] => exact absurd rfl h
  | _ + 1, c :: rest => simp

theorem chunkLoopGo_dropLast_length (cs : Nat) (hcs : 0 < cs) :
    ∀ fuel s, s.length ≤ fuel →
      ∀ c ∈ (chunkLoopGo cs fuel s).dropLast, c.length = cs := by
  intro fuel
  induction fuel with
  | zero =>
      intro s hs c hc
      simp [chunkLoopGo] at hc
  | succ n ih =>
      intro s hs c hc
      match s with
      | [] => simp [chunkLoopGo] at hc
      | a :: rest =>
          rw [chunkLoopGo] at hc
          rcases eq_or_ne (chunkLoopGo cs n ((a :: rest).drop cs)) [] with hnil | hnil
          · rw [hnil] at hc
            simp at hc
          · rw [List.dropLast_cons_of_ne_nil hnil] at hc
            rcases List.mem_cons.mp hc with rfl | hmem
            · have hlen := (chunkLoopGo_ne_nil_length cs n _ hnil).2
              simp only [List.length_drop] at hlen
              rw [List.length_take]
              omega
            · exact ih _ (by simp only [List.length_drop, List.length_cons] at hs ⊢; omega) c hmem

theorem chunkLoop_dropLast_length (cs : Nat) (s : List Char) :
    ∀ c ∈ (chunkLoop cs s).dropLast, c.length = cs := by
  rw [chunkLoop]
  by_cases h : cs = 0
  · rw [if_pos h]
    intro c hc
    simp at hc
  · rw [if_neg h]
    exact chunkLoopGo_dropLast_length cs (by omega) s.length s le_rfl

theorem chunkLoop_head (cs : Nat) (s : List Char) (h : 0 < cs) (hs : 0 < s.length) :
    ∃ rest, chunkLoop cs s = s.take cs :: rest := by
  rw [chunkLoop, if_neg (by omega)]
  match s with
  | [] => simp at hs
  | c :: rest => exact ⟨_, rfl⟩

/-- Result of probing the file system for a path: the path may be missing
(`path.exists()` false), unreadable (`open`/`read` raises), or readable with
the given byte content. -/
inductive FileResult where
  | missing
  | unreadable
  | content (data : List Nat)
deriving DecidableEq

/-- `Path(file_path).name`: the part after the last slash. -/
def pathName (p : String) : String :=
  ((p.toList.reverse.takeWhile (fun c => c ≠ '/')).reverse).asString

/-- `Path(file_path).suffix`: the dotted extension of the name, or empty. -/
def pathSuffix (p : String) : String :=
  let name := (pathName p).toList
  if name.contains '.' ∧ name.takeWhile (fun c => c ≠ '.') ≠ name then
    ('.' :: (name.reverse.takeWhile (fun c => c ≠ '.')).reverse).asString
  else ""

/-- The record dictionary returned by `FileProcessor.process_file` on success. -/
structure FileData where
  file_name : String
  file_type : String
  original_size : Nat
  compressed_size : Nat
  chunks : List (List Char)
  compression_type : String
deriving DecidableEq

/-- `FileProcessor.process_file`.  The compression codec (`zstd`/`gzip`) is an
external library, passed in as the function `compress` together with its
recorded identifier `ctype` (`compress_data` applies the codec that was
chosen at start-up).  Returns `none` when the path does not exist or fails to read,
and when the chunk loop itself faults (`range` step of `0`), mirroring the
`except` clause. -/
def processFile (compress : List Nat → List Nat) (ctype : String)
    (chunkSize : Nat) (fs : String → FileResult) (filePath : String) :
    Option FileData :=
  match fs filePath with
  | .missing => none
  | .unreadable => none
  | .content fileData =>
      if chunkSize = 0 then none
      else
        let compressedData := compress fileData
        let encodedData := b64Encode compressedData
        some
          { file_name := pathName filePath
            file_type := pathSuffix filePath
            original_size := fileData.length
            compressed_size := compressedData.length
            chunks := chunkLoop chunkSize encodedData
            compression_type := ctype }

/-- Claim C1: for every input byte sequence and every (positive) chunk size,
concatenating the `data` payloads of the chunks produced by
`FileProcessor.process_file` in index order equals the Base64 text encoding
of the compressed input; Base64-decoding and then decompressing that
concatenation reproduces the original file bytes exactly; and every chunk
except possibly the last has exactly `chunk_size` characters.  The codec is
the external `zstd`/`gzip` library, assumed to be a byte-valued left
inverse pair. -/
theorem process_file_round_trip
    (compress decompress : List Nat → List Nat) (ctype : String)
    (cs : Nat) (fs : String → FileResult) (filePath : String)
    (data : List Nat) (fd : FileData)
    (hinv : decompress (compress data) = data)
    (hbyte : ∀ x ∈ compress data, x < 256)
    (hcs : 0 < cs)
    (hfs : fs filePath = .content data)
    (h : processFile compress ctype cs fs filePath = some fd) :
    fd.chunks.flatten = b64Encode (compress data) ∧
    decompress (b64Decode fd.chunks.flatten) = data ∧
    ∀ c ∈ fd.chunks.dropLast, c.length = cs := by
  simp only [processFile, hfs] at h
  rw [if_neg (by omega : ¬ cs = 0)] at h
  have hfd : fd.chunks = chunkLoop cs (b64Encode (compress data)) := by
    cases h.symm
    rfl
  rw [hfd, chunkLoop_join cs hcs]
  exact ⟨rfl, by rw [b64Decode_b64Encode _ hbyte, hinv],
    chunkLoop_dropLast_length cs _⟩

/-- A concrete successful `process_file` result used to witness the claims
with hypotheses: the bytes of the string `hi!` in a file `a/t.bin`. -/
def sampleFd : FileData :=
  { file_name := "t.bin"
    file_type := ".bin"
    original_size := 3
    compressed_size := 3
    chunks := [['a', 'G', 'k', 'h']]
    compression_type := "zstd" }

theorem process_file_round_trip_witness :
    sampleFd.chunks.flatten = b64Encode [104, 105, 33] ∧
    id (b64Decode sampleFd.chunks.flatten) = [104, 105, 33] ∧
    ∀ c ∈ sampleFd.chunks.dropLast, c.length = 4 :=
  process_file_round_trip id id "zstd" 4 (fun _ => .content [104, 105, 33])
    "a/t.bin" [104, 105, 33] sampleFd rfl (by decide) (by decide) rfl (by decide)

/-- Claim C8: `process_file` returns `None` (no partial result) for a missing
or unreadable path, and on success returns the complete record with the
header fields and the full ordered chunk list. -/
theorem process_file_error_handling
    (compress : List Nat → List Nat) (ctype : String)
    (cs : Nat) (fs : String → FileResult) (filePath : String)
    (hcs : 0 < cs) :
    ((fs filePath = .missing ∨ fs filePath = .unreadable) →
      processFile compress ctype cs fs filePath = none) ∧
    (∀ data, fs filePath = .content data →
      processFile compress ctype cs fs filePath = some
        { file_name := pathName filePath
          file_type := pathSuffix filePath
          original_size := data.length
          compressed_size := (compress data).length
          chunks := chunkLoop cs (b64Encode (compress data))
          compression_type := ctype }) := by
  constructor
  · rintro (hmiss | hunread)
    · simp only [processFile, hmiss]
    · simp only [processFile, hunread]
  · intro data hc
    simp only [processFile, hc]
    rw [if_neg (by omega : ¬ cs = 0)]

theorem process_file_error_handling_witness :
    processFile id "zstd" 4 (fun _ => .missing) "a/t.bin" = none ∧
    processFile id "zstd" 4 (fun _ => .content [104]) "a/t.bin" = some
      { file_name := pathName "a/t.bin"
        file_type := pathSuffix "a/t.bin"
        original_size := 1
        compressed_size := 1
        chunks := chunkLoop 4 (b64Encode [104])
        compression_type := "zstd" } :=
  ⟨(process_file_error_handling id "zstd" 4 (fun _ => .missing) "a/t.bin"
      (by decide)).1 (Or.inl rfl),
   (process_file_error_handling id "zstd" 4 (fun _ => .content [104]) "a/t.bin"
      (by decide)).2 [104] rfl⟩

/-! ## Header payload (`QRGenerator._create_header_qr`, `core/qr_generator.py`). -/

/-- A JSON-ready value of the header dictionary. -/
inductive HVal where
  | str (v : String)
  | nat (v : Nat)
  | bool (v : Bool)
deriving DecidableEq

/-- The `header_info` dictionary built by `QRGenerator._create_header_qr`,
as an ordered list of key/value pairs (`int(time.time())` is passed in as
`timestamp`). -/
def headerInfo (fd : FileData) (timestamp : Nat) : List (String × HVal) :=
  [("type", .str "header"),
   ("fileName", .str fd.file_name),
   ("fileType", .str fd.file_type),
   ("originalSize", .nat fd.original_size),
   ("compressedSize", .nat fd.compressed_size),
   ("compressed", .bool true),
   ("compressionType", .str fd.compression_type),
   ("totalChunks", .nat fd.chunks.length),
   ("chunkSize", .nat (match fd.chunks with
     | [] => 0
     | c :: _ => c.length)),
   ("timestamp", .nat timestamp)]

/-- The field names of the header payload, in construction order. -/
def headerKeys (fd : FileData) (timestamp : Nat) : List String :=
  (headerInfo fd timestamp).map Prod.fst

/-- The field names the specification claims for the header payload. -/
def specHeaderKeys : List String :=
  ["type", "fileName", "fileType", "originalSize", "compressedSize",
   "compressed", "compressionType", "totalChunks", "chunkSize",
   "totalPages", "timestamp"]

/-- Claim C2 counterexample: the header payload generated for the sample
file data does not carry a `totalPages` field at all, so its field set is
not the one the specification lists. -/
theorem header_keys_counterexample :
    headerKeys sampleFd 0 ≠ specHeaderKeys ∧
    ("totalPages" ∈ specHeaderKeys) ∧ ¬ ("totalPages" ∈ headerKeys sampleFd 0) := by
  refine ⟨?_, by decide, by decide⟩
  decide

/-- Claim C2 (amended): every header payload is a JSON object whose field
set is exactly {type, fileName, fileType, originalSize, compressedSize,
compressed, compressionType, totalChunks, chunkSize, timestamp} — there is
no `totalPages` field — with `type` fixed to `"header"` and `compressed`
fixed to `true`. -/
theorem header_payload_fields (fd : FileData) (timestamp : Nat) :
    headerKeys fd timestamp =
      ["type", "fileName", "fileType", "originalSize", "compressedSize",
       "compressed", "compressionType", "totalChunks", "chunkSize",
       "timestamp"] ∧
    (headerInfo fd timestamp).lookup "type" = some (.str "header") ∧
    (headerInfo fd timestamp).lookup "compressed" = some (.bool true) ∧
    ¬ ("totalPages" ∈ headerKeys fd timestamp) := by
  refine ⟨rfl, rfl, rfl, ?_⟩
  intro hmem
  rw [headerKeys] at hmem
  simp [headerInfo] at hmem

/-- Claim C10: in the generated header payload, `chunkSize` equals the
length of the first chunk: `0` when the file yields zero chunks, and
`min chunk_size encoded_length` otherwise — so it equals the configured
`chunk_size` only when the encoded payload has at least `chunk_size`
characters. -/
theorem header_chunk_size
    (compress : List Nat → List Nat) (ctype : String)
    (cs : Nat) (fs : String → FileResult) (filePath : String)
    (data : List Nat) (fd : FileData) (timestamp : Nat)
    (hcs : 0 < cs)
    (hfs : fs filePath = .content data)
    (h : processFile compress ctype cs fs filePath = some fd) :
    (fd.chunks = [] →
      (headerInfo fd timestamp).lookup "chunkSize" = some (.nat 0)) ∧
    (fd.chunks ≠ [] →
      (headerInfo fd timestamp).lookup "chunkSize" =
        some (.nat (min cs (b64Encode (compress data)).length))) ∧
    ((headerInfo fd timestamp).lookup "chunkSize" = some (.nat cs) →
      cs ≤ (b64Encode (compress data)).length) := by
  simp only [processFile, hfs] at h
  rw [if_neg (by omega : ¬ cs = 0)] at h
  have hfd : fd.chunks = chunkLoop cs (b64Encode (compress data)) := by
    cases h.symm
    rfl
  have hlook : ∀ v, (headerInfo fd timestamp).lookup "chunkSize" =
      some (.nat v) ↔ v = (match fd.chunks with
        | [] => 0
        | c :: _ => c.length) := by
    intro v
    simp [headerInfo, List.lookup, eq_comm]
  by_cases hnil : fd.chunks = []
  · refine ⟨fun _ => ?_, fun hne => absurd hnil hne, fun hv => ?_⟩
    · rw [hlook, hnil]
    · rw [hlook] at hv
      have hv2 : cs = 0 := by
        rw [hnil] at hv
        exact hv
      omega
  · have hpos : 0 < (b64Encode (compress data)).length := by
      by_contra hz
      have : b64Encode (compress data) = [] :=
        List.length_eq_zero.mp (by omega)
      rw [hfd, this] at hnil
      exact hnil (by rw [chunkLoop]; split <;> rfl)
    obtain ⟨rest, hrest⟩ := chunkLoop_head cs (b64Encode (compress data)) hcs hpos
    refine ⟨fun he => absurd he hnil, fun _ => ?_, fun hv => ?_⟩
    · rw [hlook, hfd, hrest]
      show min cs (b64Encode (compress data)).length =
        (List.take cs (b64Encode (compress data))).length
      rw [List.length_take]
    · rw [hlook, hfd, hrest] at hv
      have hv2 : cs = (List.take cs (b64Encode (compress data))).length := hv
      rw [List.length_take] at hv2
      omega

theorem header_chunk_size_witness :
    (sampleFd.chunks = [] →
      (headerInfo sampleFd 0).lookup "chunkSize" = some (.nat 0)) ∧
    (sampleFd.chunks ≠ [] →
      (headerInfo sampleFd 0).lookup "chunkSize" =
        some (.nat (min 4 (b64Encode (id [104, 105, 33])).length))) ∧
    ((headerInfo sampleFd 0).lookup "chunkSize" = some (.nat 4) →
      4 ≤ (b64Encode (id [104, 105, 33])).length) :=
  header_chunk_size id "zstd" 4 (fun _ => .content [104, 105, 33])
    "a/t.bin" [104, 105, 33] sampleFd 0 (by decide) rfl (by decide)

/-! ## Frame layout engine
(`QRGenerator._generate_photo_optimized_matrices` and
`QRGenerator._create_photo_optimized_matrix`, `core/qr_generator.py`). -/

/-- Ceiling division, as the source writes it:
`(len(chunks) + qr_per_frame - 1) // qr_per_frame`. -/
def ceilDiv (a b : Nat) : Nat := (a + b - 1) / b

/-- The index sequence of Python `range(i, n, step)`, fuel-driven
(`rangeStep` below supplies `n` as fuel, enough for a positive step). -/
def rangeStepGo (step : Nat) : Nat → Nat → Nat → List Nat
  | 0, _, _ => []
  | fuel + 1, i, n => if i < n then i :: rangeStepGo step fuel (i + step) n else []

/-- Python `range(start, n, step)`; a zero step raises `ValueError`, mapped
to the empty sequence (callers never pass it). -/
def rangeStep (start n step : Nat) : List Nat :=
  if step = 0 then [] else rangeStepGo step n start n

theorem ceilDiv_zero_left (b : Nat) : ceilDiv 0 b = 0 := by
  rw [ceilDiv]
  rcases Nat.eq_zero_or_pos b with hb | hb
  · simp [hb]
  · exact Nat.div_eq_of_lt (by omega)

theorem ceilDiv_step (m step : Nat) (h1 : 0 < m) (h2 : 0 < step) :
    ceilDiv m step = 1 + ceilDiv (m - step) step := by
  by_cases hm : step ≤ m
  · rw [ceilDiv, ceilDiv,
      show m + step - 1 = (m - step + step - 1) + step by omega,
      Nat.add_div_right _ h2]
    omega
  · rw [ceilDiv, ceilDiv, show m - step = 0 by omega]
    rw [Nat.div_eq_of_lt_le (by omega) (by omega : m + step - 1 < (1 + 1) * step)]
    rw [Nat.div_eq_of_lt (by omega)]

theorem rangeStepGo_length (step : Nat) (h2 : 0 < step) :
    ∀ fuel i n, n - i ≤ fuel →
      (rangeStepGo step fuel i n).length = ceilDiv (n - i) step := by
  intro fuel
  induction fuel with
  | zero =>
      intro i n hf
      rw [rangeStepGo, show n - i = 0 by omega, ceilDiv_zero_left]
      rfl
  | succ f ih =>
      intro i n hf
      rw [rangeStepGo]
      by_cases hin : i < n
      · rw [if_pos hin, List.length_cons, ih (i + step) n (by omega),
          show n - (i + step) = n - i - step by omega,
          ceilDiv_step (n - i) step (by omega) h2]
        omega
      · rw [if_neg hin, show n - i = 0 by omega, ceilDiv_zero_left]
        rfl

theorem rangeStep_length (n step : Nat) (h2 : 0 < step) :
    (rangeStep 0 n step).length = ceilDiv n step := by
  rw [rangeStep, if_neg (by omega)]
  have := rangeStepGo_length step h2 n 0 n (by omega)
  simpa using this

/-- `qr_per_frame` of `_generate_photo_optimized_matrices`: the grid is
floored at 5 columns and 4 rows, the four corner control cells are
subtracted, and the result is floored at 16 data cells. -/
def photoQrPerFrame (cols rows : Nat) : Nat :=
  max 16 (max 5 cols * max 4 rows - 4)

/-- The grid floor makes the 16-minimum redundant: the data capacity is
always the floored cell count minus the 4 corner markers. -/
theorem photoQrPerFrame_eq (cols rows : Nat) :
    photoQrPerFrame cols rows = max 5 cols * max 4 rows - 4 := by
  have h5 : 5 ≤ max 5 cols := Nat.le_max_left 5 cols
  have h4 : 4 ≤ max 4 rows := Nat.le_max_left 4 rows
  have : 20 ≤ max 5 cols * max 4 rows := Nat.mul_le_mul h5 h4
  rw [photoQrPerFrame]
  omega

/-- A grid cell of a photo-optimized page: a corner control marker
carrying the page/total pair, a chunk payload, or an explicitly empty
cell. -/
inductive Cell where
  | marker (position : String) (page total : Nat)
  | chunk (index : Nat) (data : List Char)
  | empty
deriving DecidableEq

/-- The cell-classification loop of `_create_photo_optimized_matrix`:
row-major positions, the four corners reserved for control markers, the
rest filled with consecutive chunks (`chunk_offset` threading) and the
cells past the last chunk explicitly marked empty. -/
def photoCellsGo (chunks : List (List Char)) (startIndex cols rows pageNumber totalPages : Nat) :
    List (Nat × Nat) → Nat → List Cell
  | [], _ => []
  | (row, col) :: rest, chunkOffset =>
      if row = 0 ∧ col = 0 then
        Cell.marker "top-left" pageNumber totalPages ::
          photoCellsGo chunks startIndex cols rows pageNumber totalPages rest chunkOffset
      else if row = 0 ∧ col = cols - 1 then
        Cell.marker "top-right" pageNumber totalPages ::
          photoCellsGo chunks startIndex cols rows pageNumber totalPages rest chunkOffset
      else if row = rows - 1 ∧ col = 0 then
        Cell.marker "bottom-left" pageNumber totalPages ::
          photoCellsGo chunks startIndex cols rows pageNumber totalPages rest chunkOffset
      else if row = rows - 1 ∧ col = cols - 1 then
        Cell.marker "bottom-right" pageNumber totalPages ::
          photoCellsGo chunks startIndex cols rows pageNumber totalPages rest chunkOffset
      else if startIndex + chunkOffset < chunks.length then
        Cell.chunk (startIndex + chunkOffset) (chunks.getD (startIndex + chunkOffset) []) ::
          photoCellsGo chunks startIndex cols rows pageNumber totalPages rest (chunkOffset + 1)
      else
        Cell.empty ::
          photoCellsGo chunks startIndex cols rows pageNumber totalPages rest chunkOffset

/-- The row-major traversal `for row in range(rows): for col in range(cols)`. -/
def gridPositions (cols rows : Nat) : List (Nat × Nat) :=
  (List.range rows).flatMap (fun row => (List.range cols).map (fun col => (row, col)))

/-- The cell contents of one photo-optimized page
(`_create_photo_optimized_matrix`). -/
def photoMatrixCells (chunks : List (List Char))
    (startIndex cols rows pageNumber totalPages : Nat) : List Cell :=
  photoCellsGo chunks startIndex cols rows pageNumber totalPages
    (gridPositions cols rows) 0

/-- The page loop of `_generate_photo_optimized_matrices`: one page per
`range(0, len(chunks), qr_per_frame)` index, keyed by its start index,
with the page number and the recomputed total page count. -/
def photoPages (chunks : List (List Char)) (cols rows : Nat) :
    List (Nat × List Cell) :=
  let qpf := photoQrPerFrame cols rows
  (rangeStep 0 chunks.length qpf).map
    (fun i => (i, photoMatrixCells chunks i (max 5 cols) (max 4 rows)
      (i / qpf + 1) (ceilDiv chunks.length qpf)))

/-- The page start indices of the normal (video) mode loop in
`_generate_thread`: `adjusted_qr_per_frame = qr_per_frame - 2` and one
page per `range(0, len(chunks), adjusted_qr_per_frame)` index. -/
def videoPageStarts (chunkCount qrPerFrame : Nat) : List Nat :=
  rangeStep 0 chunkCount (qrPerFrame - 2)

/-- Claim C3: the number of pages produced equals
`ceil(chunk_count / (cell_count - marker_count))`, the minimum grid floor
being applied before the marker cells are subtracted, in both the 4-marker
photo mode and the 2-marker video mode (any valid `qr_per_frame ≥ 3`);
zero chunks produce zero pages. -/
theorem page_count_eq (chunks : List (List Char)) (cols rows qrPerFrame : Nat)
    (hq : 3 ≤ qrPerFrame) :
    (photoPages chunks cols rows).length =
      ceilDiv chunks.length (max 5 cols * max 4 rows - 4) ∧
    (chunks.length = 0 → (photoPages chunks cols rows).length = 0) ∧
    (videoPageStarts chunks.length qrPerFrame).length =
      ceilDiv chunks.length (qrPerFrame - 2) ∧
    (chunks.length = 0 → (videoPageStarts chunks.length qrPerFrame).length = 0) := by
  have hcap : 16 ≤ photoQrPerFrame cols rows := Nat.le_max_left _ _
  have hphoto : (photoPages chunks cols rows).length =
      ceilDiv chunks.length (max 5 cols * max 4 rows - 4) := by
    rw [photoPages, List.length_map, rangeStep_length _ _ (by omega),
      photoQrPerFrame_eq]
  have hvideo : (videoPageStarts chunks.length qrPerFrame).length =
      ceilDiv chunks.length (qrPerFrame - 2) := by
    rw [videoPageStarts, rangeStep_length _ _ (by omega)]
  refine ⟨hphoto, fun h0 => ?_, hvideo, fun h0 => ?_⟩
  · rw [hphoto, h0, ceilDiv_zero_left]
  · rw [hvideo, h0, ceilDiv_zero_left]

theorem page_count_eq_witness :
    (photoPages (List.replicate 20 ['x']) 5 4).length = ceilDiv 20 16 ∧
    ((List.replicate 20 ['x'] : List (List Char)).length = 0 →
      (photoPages (List.replicate 20 ['x']) 5 4).length = 0) ∧
    (videoPageStarts (List.replicate 20 ['x'] : List (List Char)).length 12).length =
      ceilDiv 20 10 ∧
    ((List.replicate 20 ['x'] : List (List Char)).length = 0 →
      (videoPageStarts (List.replicate 20 ['x'] : List (List Char)).length 12).length = 0) := by
  have h := page_count_eq (List.replicate 20 ['x']) 5 4 12 (by decide)
  simpa using h

/-- The chunk indices carried by a cell list, in cell order. -/
def cellChunkIndices (cells : List Cell) : List Nat :=
  cells.filterMap (fun c => match c with
    | .chunk i _ => some i
    | _ => none)

/-- The marker positions carried by a cell list, in cell order. -/
def cellMarkers (cells : List Cell) : List String :=
  cells.filterMap (fun c => match c with
    | .marker p _ _ => some p
    | _ => none)

/-- How many cells of a page are explicitly marked empty. -/
def cellEmptyCount (cells : List Cell) : Nat :=
  (cells.filter (fun c => match c with
    | .empty => true
    | _ => false)).length

/-- Every chunk cell carries the payload of the chunk it names. -/
def chunkDataOk (chunks : List (List Char)) (cells : List Cell) : Bool :=
  cells.all (fun c => match c with
    | .chunk i d => d == chunks.getD i []
    | _ => true)

/-- Twenty distinct one-character chunks, the layout example of the
specification (`chunk_count = 20`). -/
def c4Chunks : List (List Char) :=
  (List.range 20).map (fun i => [b64Char i])

/-- Claim C4: for a `cols = 5`, `rows = 4` grid in 4-marker mode
(capacity 16) and 20 chunks, page 1 carries exactly chunks 0–15 and
page 2 exactly chunks 16–19, in row-major order, the four corner cells of
each page being control markers, each chunk cell carrying its chunk's
payload, and the 12 unused non-marker cells of page 2 being explicitly
marked empty. -/
theorem page_assembly_example :
    photoPages c4Chunks 5 4 =
      [(0, photoMatrixCells c4Chunks 0 5 4 1 2),
       (16, photoMatrixCells c4Chunks 16 5 4 2 2)] ∧
    cellChunkIndices (photoMatrixCells c4Chunks 0 5 4 1 2) = List.range 16 ∧
    cellChunkIndices (photoMatrixCells c4Chunks 16 5 4 2 2) = [16, 17, 18, 19] ∧
    (photoMatrixCells c4Chunks 0 5 4 1 2).get? 0 = some (.marker "top-left" 1 2) ∧
    (photoMatrixCells c4Chunks 0 5 4 1 2).get? 4 = some (.marker "top-right" 1 2) ∧
    (photoMatrixCells c4Chunks 0 5 4 1 2).get? 15 = some (.marker "bottom-left" 1 2) ∧
    (photoMatrixCells c4Chunks 0 5 4 1 2).get? 19 = some (.marker "bottom-right" 1 2) ∧
    cellMarkers (photoMatrixCells c4Chunks 16 5 4 2 2) =
      ["top-left", "top-right", "bottom-left", "bottom-right"] ∧
    cellEmptyCount (photoMatrixCells c4Chunks 0 5 4 1 2) = 0 ∧
    cellEmptyCount (photoMatrixCells c4Chunks 16 5 4 2 2) = 12 ∧
    chunkDataOk c4Chunks (photoMatrixCells c4Chunks 0 5 4 1 2) = true ∧
    chunkDataOk c4Chunks (photoMatrixCells c4Chunks 16 5 4 2 2) = true := by
  decide

/-! ## Frame generator start guard (`QRGenerator.generate_all_qrcodes`,
`core/qr_generator.py`). -/

/-- A key of the generator's frame store: the reserved header key or a
page keyed by its first chunk index. -/
inductive QrKey where
  | header
  | page (startIndex : Nat)
deriving DecidableEq

/-- A stored frame, modelled by the payload content it renders. -/
inductive FrameVal where
  | headerFrame (payload : List (String × HVal))
  | pageFrame (cells : List Cell)
deriving DecidableEq

/-- The generator's mutable state: the loaded file data, the keyed frame
store (`qr_images`) and the `is_generating` guard flag. -/
structure GenState where
  fileData : Option FileData
  qrImages : List (QrKey × FrameVal)
  isGenerating : Bool
deriving DecidableEq

/-- What the background worker publishes when it runs to completion in
photo mode: the header frame and one frame per photo-optimized page
(`_generate_thread`). -/
def generateThreadImages (fd : FileData) (cols rows timestamp : Nat) :
    List (QrKey × FrameVal) :=
  (QrKey.header, FrameVal.headerFrame (headerInfo fd timestamp)) ::
    (photoPages fd.chunks cols rows).map
      (fun p => (QrKey.page p.1, FrameVal.pageFrame p.2))

/-- `QRGenerator.generate_all_qrcodes`: returns the updated state and
whether a background worker thread was started.  The call returns
immediately when a generation is already running or no file is loaded. -/
def generateAllQrcodes (st : GenState) : GenState × Bool :=
  if st.isGenerating then (st, false)
  else
    match st.fileData with
    | none => (st, false)
    | some _ => ({ st with isGenerating := true }, true)

/-- Claim C9: calling `generate_all_qrcodes` while a generation is already
in progress is a silent no-op: the state (and so the frame store's
contents and count) is unchanged and no second worker thread is
started. -/
theorem generate_reentrancy (st : GenState) (h : st.isGenerating = true) :
    generateAllQrcodes st = (st, false) ∧
    (generateAllQrcodes st).1.qrImages = st.qrImages ∧
    (generateAllQrcodes st).1.qrImages.length = st.qrImages.length ∧
    (generateAllQrcodes st).2 = false := by
  rw [generateAllQrcodes, if_pos h]
  exact ⟨rfl, rfl, rfl, rfl⟩

theorem generate_reentrancy_witness :
    generateAllQrcodes
        { fileData := some sampleFd
          qrImages := [(QrKey.header, FrameVal.headerFrame (headerInfo sampleFd 0))]
          isGenerating := true } =
      ({ fileData := some sampleFd
         qrImages := [(QrKey.header, FrameVal.headerFrame (headerInfo sampleFd 0))]
         isGenerating := true }, false) :=
  (generate_reentrancy
    { fileData := some sampleFd
      qrImages := [(QrKey.header, FrameVal.headerFrame (headerInfo sampleFd 0))]
      isGenerating := true } rfl).1

/-! ## Transmission scheduler
(`TransmissionController._transmission_loop`, `core/transmission.py`). -/

/-- The fixed configuration of one `_transmission_loop` run: the frame
rate, the per-page data capacity (`qr_per_frame - 4` in photo mode), the
chunk count and the cycle mode. -/
structure TxConfig where
  fps : Nat
  adjusted : Nat
  chunkCount : Nat
  singleCycle : Bool
deriving DecidableEq

/-- `header_duration = fps * 2`. -/
def headerDuration (cfg : TxConfig) : Nat := cfg.fps * 2

/-- `matrix_duration = fps * 3`. -/
def matrixDuration (cfg : TxConfig) : Nat := cfg.fps * 3

/-- The loop's mutable variables: `is_transmitting`, `current_index`
(`-1` = header phase), the two dwell counters and `cycle_count`. -/
structure TxState where
  isTransmitting : Bool
  currentIndex : Int
  headerCount : Nat
  matrixCount : Nat
  cycleCount : Nat
deriving DecidableEq

/-- The status argument of a `progress_callback` call, by the values the
format string names. -/
inductive TxStatus where
  | page (pageNumber totalPages chunkLo chunkHi chunkCount : Nat)
  | pageCycle (pageNumber totalPages chunkLo chunkHi chunkCount cycle : Nat)
  | done
  | doneAfterEnd
deriving DecidableEq

/-- The percentage argument of a `progress_callback` call: either the
expression `(chunk_end / chunk_count) * 100` carried by its two operands,
or the literal `100`. -/
inductive TxPct where
  | ratio (chunkEnd chunkCount : Nat)
  | full
deriving DecidableEq

/-- The numeric value of a percentage argument (the Python expression
evaluates exactly on the inputs of interest). -/
def TxPct.toQ : TxPct → ℚ
  | .ratio e c => (e : ℚ) / (c : ℚ) * 100
  | .full => 100

/-- What one loop tick does to the display and the progress channel. -/
inductive TxEvent where
  | displayHeader
  | displayMatrix (index : Nat)
  | displayControl (action : String)
  | progress (pct : TxPct) (status : TxStatus)
deriving DecidableEq

/-- The state right after `start()`: transmitting, `current_index = -1`,
counters reset. -/
def txInit : TxState :=
  { isTransmitting := true
    currentIndex := -1
    headerCount := 0
    matrixCount := 0
    cycleCount := 0 }

/-- One iteration of the `while self.is_transmitting` loop body. -/
def txStep (cfg : TxConfig) (s : TxState) : TxState × List TxEvent :=
  if s.currentIndex = -1 then
    let ev := if s.headerCount = 0 then [TxEvent.displayHeader] else []
    let hc := s.headerCount + 1
    if headerDuration cfg ≤ hc then
      ({ s with currentIndex := 0, headerCount := 0, matrixCount := 0 }, ev)
    else
      ({ s with headerCount := hc }, ev)
  else
    let idx := s.currentIndex.toNat
    let chunkEnd := min (idx + cfg.adjusted) cfg.chunkCount
    let pageNumber := idx / cfg.adjusted + 1
    let totalPages := ceilDiv cfg.chunkCount cfg.adjusted
    let ev := if s.matrixCount = 0 then
        [TxEvent.displayMatrix idx,
         TxEvent.progress (TxPct.ratio chunkEnd cfg.chunkCount)
           (if cfg.singleCycle then
             TxStatus.page pageNumber totalPages (idx + 1) chunkEnd cfg.chunkCount
           else
             TxStatus.pageCycle pageNumber totalPages (idx + 1) chunkEnd
               cfg.chunkCount (s.cycleCount + 1))]
      else []
    let mc := s.matrixCount + 1
    if matrixDuration cfg ≤ mc then
      let newIndex := s.currentIndex + (cfg.adjusted : Int)
      if (cfg.chunkCount : Int) ≤ newIndex then
        if cfg.singleCycle then
          ({ s with
              isTransmitting := false
              currentIndex := newIndex
              matrixCount := 0
              cycleCount := s.cycleCount + 1 },
           ev ++ [TxEvent.progress TxPct.full TxStatus.done])
        else
          ({ s with
              currentIndex := -1
              matrixCount := 0
              cycleCount := s.cycleCount + 1 }, ev)
      else
        ({ s with currentIndex := newIndex, matrixCount := 0 }, ev)
    else
      ({ s with matrixCount := mc }, ev)

/-- Run the loop for (at most) `fuel` ticks; it exits as soon as
`is_transmitting` is cleared. -/
def txRun (cfg : TxConfig) : Nat → TxState → TxState × List TxEvent
  | 0, s => (s, [])
  | fuel + 1, s =>
      if s.isTransmitting then
        let se := txStep cfg s
        let rest := txRun cfg fuel se.1
        (rest.1, se.2 ++ rest.2)
      else (s, [])

/-- The whole `_transmission_loop` call: the `recording_start` control
frame, the timed loop, and — once the loop has exited — the
`recording_end` control frame, the header frame again and the final
progress report. -/
def txSession (cfg : TxConfig) (fuel : Nat) : TxState × List TxEvent :=
  let r := txRun cfg fuel txInit
  if r.1.isTransmitting then
    (r.1, TxEvent.displayControl "recording_start" :: r.2)
  else
    (r.1, TxEvent.displayControl "recording_start" :: r.2 ++
      [TxEvent.displayControl "recording_end", TxEvent.displayHeader,
       TxEvent.progress TxPct.full TxStatus.doneAfterEnd])

/-- The loop state `j` ticks into the dwell of the page starting at chunk
`i`, with `c` completed cycles. -/
def txPageMid (i j c : Nat) : TxState :=
  { isTransmitting := true
    currentIndex := (i : Int)
    headerCount := 0
    matrixCount := j
    cycleCount := c }

/-- The loop state at the start of the page beginning at chunk `i`. -/
def txPage (i c : Nat) : TxState := txPageMid i 0 c

/-- The loop state `j` ticks into the header dwell. -/
def txHeaderMid (j c : Nat) : TxState :=
  { isTransmitting := true
    currentIndex := -1
    headerCount := j
    matrixCount := 0
    cycleCount := c }

theorem txInit_eq : txInit = txHeaderMid 0 0 := rfl

/-- The events the loop emits on the first tick of the page starting at
chunk `i` (the display plus the progress report). -/
def txPageEvents (cfg : TxConfig) (i c : Nat) : List TxEvent :=
  [TxEvent.displayMatrix i,
   TxEvent.progress
     (TxPct.ratio (min (i + cfg.adjusted) cfg.chunkCount) cfg.chunkCount)
     (if cfg.singleCycle then
       TxStatus.page (i / cfg.adjusted + 1) (ceilDiv cfg.chunkCount cfg.adjusted)
         (i + 1) (min (i + cfg.adjusted) cfg.chunkCount) cfg.chunkCount
     else
       TxStatus.pageCycle (i / cfg.adjusted + 1) (ceilDiv cfg.chunkCount cfg.adjusted)
         (i + 1) (min (i + cfg.adjusted) cfg.chunkCount) cfg.chunkCount (c + 1))]

theorem txRun_stopped (cfg : TxConfig) (n : Nat) (s : TxState)
    (h : s.isTransmitting = false) : txRun cfg n s = (s, []) := by
  cases n with
  | zero => rfl
  | succ m =>
      rw [txRun, if_neg (by rw [h]; exact Bool.false_ne_true)]

theorem txRun_add (cfg : TxConfig) (m n : Nat) (s : TxState) :
    txRun cfg (m + n) s =
      ((txRun cfg n (txRun cfg m s).1).1,
       (txRun cfg m s).2 ++ (txRun cfg n (txRun cfg m s).1).2) := by
  induction m generalizing s with
  | zero =>
      rw [Nat.zero_add]
      rfl
  | succ k ih =>
      rw [show k + 1 + n = (k + n) + 1 by omega, txRun, txRun]
      by_cases ht : s.isTransmitting
      · rw [if_pos ht, if_pos ht]
        simp only
        rw [ih (txStep cfg s).1]
        simp [List.append_assoc]
      · rw [if_neg ht, if_neg ht]
        simp only
        rw [txRun_stopped cfg n s (by revert ht; cases s.isTransmitting <;> simp)]
        simp

theorem txStep_page_mid (cfg : TxConfig) (i j c : Nat)
    (hj : 1 ≤ j) (hlt : j + 1 < cfg.fps * 3) :
    txStep cfg (txPageMid i j c) = (txPageMid i (j + 1) c, []) := by
  have h1 : ¬ (((i : Nat) : Int) = -1) := by omega
  have h2 : ¬ (j = 0) := by omega
  have h3 : ¬ (cfg.fps * 3 ≤ j + 1) := by omega
  simp [txStep, txPageMid, matrixDuration, h1, h2, h3]

theorem txStep_page_start (cfg : TxConfig) (i c : Nat)
    (hlt : 1 < cfg.fps * 3) :
    txStep cfg (txPage i c) = (txPageMid i 1 c, txPageEvents cfg i c) := by
  have h1 : ¬ (((i : Nat) : Int) = -1) := by omega
  have h3 : ¬ (cfg.fps * 3 ≤ 0 + 1) := by omega
  simp [txStep, txPage, txPageMid, matrixDuration, h1, h3, txPageEvents]

theorem txRun_page_stay (cfg : TxConfig) (i c : Nat) :
    ∀ k j, 1 ≤ j → j + k < cfg.fps * 3 →
      txRun cfg k (txPageMid i j c) = (txPageMid i (j + k) c, []) := by
  intro k
  induction k with
  | zero =>
      intro j hj hlt
      rfl
  | succ m ih =>
      intro j hj hlt
      rw [txRun, if_pos (by rfl), txStep_page_mid cfg i j c hj (by omega)]
      simp only
      rw [ih (j + 1) (by omega) (by omega)]
      simp [show j + 1 + m = j + (m + 1) by omega]

theorem txStep_page_last_next (cfg : TxConfig) (i c : Nat)
    (hf : 2 ≤ cfg.fps * 3) (hlt : i + cfg.adjusted < cfg.chunkCount) :
    txStep cfg (txPageMid i (cfg.fps * 3 - 1) c) =
      (txPage (i + cfg.adjusted) c, []) := by
  have h1 : ¬ (((i : Nat) : Int) = -1) := by omega
  have h2 : ¬ (cfg.fps * 3 - 1 = 0) := by omega
  have h3 : cfg.fps * 3 ≤ cfg.fps * 3 - 1 + 1 := by omega
  have h4 : ¬ ((cfg.chunkCount : Int) ≤ (i : Int) + (cfg.adjusted : Int)) := by omega
  simp [txStep, txPage, txPageMid, matrixDuration, h1, h2, h3, h4]

theorem txStep_page_last_stop (cfg : TxConfig) (i c : Nat)
    (hf : 2 ≤ cfg.fps * 3) (hge : cfg.chunkCount ≤ i + cfg.adjusted)
    (hs : cfg.singleCycle = true) :
    txStep cfg (txPageMid i (cfg.fps * 3 - 1) c) =
      ({ isTransmitting := false
         currentIndex := ((i + cfg.adjusted : Nat) : Int)
         headerCount := 0
         matrixCount := 0
         cycleCount := c + 1 },
       [TxEvent.progress TxPct.full TxStatus.done]) := by
  have h1 : ¬ (((i : Nat) : Int) = -1) := by omega
  have h2 : ¬ (cfg.fps * 3 - 1 = 0) := by omega
  have h3 : cfg.fps * 3 ≤ cfg.fps * 3 - 1 + 1 := by omega
  have h4 : (cfg.chunkCount : Int) ≤ (i : Int) + (cfg.adjusted : Int) := by omega
  simp [txStep, txPageMid, matrixDuration, h1, h2, h3, h4, hs]

/-- Advancing through one full page dwell: from the start of the page at
chunk `i` (not the last page), `fps * 3` ticks display the page once,
report progress once, and land at the start of the next page. -/
theorem txRun_page_next (cfg : TxConfig) (i c : Nat) (hf : 1 ≤ cfg.fps)
    (hlt : i + cfg.adjusted < cfg.chunkCount) :
    txRun cfg (cfg.fps * 3) (txPage i c) =
      (txPage (i + cfg.adjusted) c, txPageEvents cfg i c) := by
  have hsplit : cfg.fps * 3 = 1 + (cfg.fps * 3 - 2) + 1 := by
    have : 3 ≤ cfg.fps * 3 := by omega
    omega
  rw [hsplit, txRun_add, txRun_add]
  rw [show txRun cfg 1 (txPage i c) =
      ((txStep cfg (txPage i c)).1, (txStep cfg (txPage i c)).2 ++ []) from rfl]
  rw [txStep_page_start cfg i c (by omega)]
  simp only
  rw [txRun_page_stay cfg i c (cfg.fps * 3 - 2) 1 (by omega) (by omega)]
  simp only
  rw [show txRun cfg 1 (txPageMid i (1 + (cfg.fps * 3 - 2)) c) =
      ((txStep cfg (txPageMid i (1 + (cfg.fps * 3 - 2)) c)).1,
       (txStep cfg (txPageMid i (1 + (cfg.fps * 3 - 2)) c)).2 ++ []) from rfl]
  rw [show 1 + (cfg.fps * 3 - 2) = cfg.fps * 3 - 1 by omega]
  rw [txStep_page_last_next cfg i c (by omega) hlt]
  simp

/-- The last page of a single-cycle run: `fps * 3` ticks display the page
once, report its progress, then stop the loop with the 100 % completion
report, the cycle counter incremented. -/
theorem txRun_page_stop (cfg : TxConfig) (i c : Nat) (hf : 1 ≤ cfg.fps)
    (hge : cfg.chunkCount ≤ i + cfg.adjusted) (hs : cfg.singleCycle = true) :
    txRun cfg (cfg.fps * 3) (txPage i c) =
      ({ isTransmitting := false
         currentIndex := ((i + cfg.adjusted : Nat) : Int)
         headerCount := 0
         matrixCount := 0
         cycleCount := c + 1 },
       txPageEvents cfg i c ++ [TxEvent.progress TxPct.full TxStatus.done]) := by
  have hsplit : cfg.fps * 3 = 1 + (cfg.fps * 3 - 2) + 1 := by
    have : 3 ≤ cfg.fps * 3 := by omega
    omega
  rw [hsplit, txRun_add, txRun_add]
  rw [show txRun cfg 1 (txPage i c) =
      ((txStep cfg (txPage i c)).1, (txStep cfg (txPage i c)).2 ++ []) from rfl]
  rw [txStep_page_start cfg i c (by omega)]
  simp only
  rw [txRun_page_stay cfg i c (cfg.fps * 3 - 2) 1 (by omega) (by omega)]
  simp only
  rw [show txRun cfg 1 (txPageMid i (1 + (cfg.fps * 3 - 2)) c) =
      ((txStep cfg (txPageMid i (1 + (cfg.fps * 3 - 2)) c)).1,
       (txStep cfg (txPageMid i (1 + (cfg.fps * 3 - 2)) c)).2 ++ []) from rfl]
  rw [show 1 + (cfg.fps * 3 - 2) = cfg.fps * 3 - 1 by omega]
  rw [txStep_page_last_stop cfg i c (by omega) hge hs]
  simp

theorem txStep_header_start (cfg : TxConfig) (c : Nat) (hf : 1 < cfg.fps * 2) :
    txStep cfg (txHeaderMid 0 c) = (txHeaderMid 1 c, [TxEvent.displayHeader]) := by
  have h3 : ¬ (cfg.fps * 2 ≤ 0 + 1) := by omega
  simp [txStep, txHeaderMid, headerDuration, h3]

theorem txStep_header_mid (cfg : TxConfig) (j c : Nat)
    (hj : 1 ≤ j) (hlt : j + 1 < cfg.fps * 2) :
    txStep cfg (txHeaderMid j c) = (txHeaderMid (j + 1) c, []) := by
  have h2 : ¬ (j = 0) := by omega
  have h3 : ¬ (cfg.fps * 2 ≤ j + 1) := by omega
  simp [txStep, txHeaderMid, headerDuration, h2, h3]

theorem txStep_header_last (cfg : TxConfig) (c : Nat) (hf : 2 ≤ cfg.fps * 2) :
    txStep cfg (txHeaderMid (cfg.fps * 2 - 1) c) = (txPage 0 c, []) := by
  have h2 : ¬ (cfg.fps * 2 - 1 = 0) := by omega
  have h3 : cfg.fps * 2 ≤ cfg.fps * 2 - 1 + 1 := by omega
  simp [txStep, txHeaderMid, txPage, txPageMid, headerDuration, h2, h3]

theorem txRun_header_stay (cfg : TxConfig) (c : Nat) :
    ∀ k j, 1 ≤ j → j + k < cfg.fps * 2 →
      txRun cfg k (txHeaderMid j c) = (txHeaderMid (j + k) c, []) := by
  intro k
  induction k with
  | zero =>
      intro j hj hlt
      rfl
  | succ m ih =>
      intro j hj hlt
      rw [txRun, if_pos (by rfl), txStep_header_mid cfg j c hj (by omega)]
      simp only
      rw [ih (j + 1) (by omega) (by omega)]
      simp [show j + 1 + m = j + (m + 1) by omega]

/-- The header dwell: `fps * 2` ticks display the header frame once and
land at the start of the first page. -/
theorem txRun_header (cfg : TxConfig) (c : Nat) (hf : 1 ≤ cfg.fps) :
    txRun cfg (cfg.fps * 2) (txHeaderMid 0 c) =
      (txPage 0 c, [TxEvent.displayHeader]) := by
  have hsplit : cfg.fps * 2 = 1 + (cfg.fps * 2 - 2) + 1 := by
    have : 2 ≤ cfg.fps * 2 := by omega
    omega
  rw [hsplit, txRun_add, txRun_add]
  rw [show txRun cfg 1 (txHeaderMid 0 c) =
      ((txStep cfg (txHeaderMid 0 c)).1, (txStep cfg (txHeaderMid 0 c)).2 ++ []) from rfl]
  rw [txStep_header_start cfg c (by omega)]
  simp only
  rw [txRun_header_stay cfg c (cfg.fps * 2 - 2) 1 (by omega) (by omega)]
  simp only
  rw [show txRun cfg 1 (txHeaderMid (1 + (cfg.fps * 2 - 2)) c) =
      ((txStep cfg (txHeaderMid (1 + (cfg.fps * 2 - 2)) c)).1,
       (txStep cfg (txHeaderMid (1 + (cfg.fps * 2 - 2)) c)).2 ++ []) from rfl]
  rw [show 1 + (cfg.fps * 2 - 2) = cfg.fps * 2 - 1 by omega]
  rw [txStep_header_last cfg c (by omega)]
  simp

/-- The configuration of the specification's dwell example: `fps = 5`,
photo-mode capacity 16, 32 chunks, single cycle. -/
def dwellCfg : TxConfig :=
  { fps := 5, adjusted := 16, chunkCount := 32, singleCycle := true }

/-- Claim C5 counterexample: with `fps = 5` the scheduler is still
displaying the same page after 10 ticks (`current_index` unchanged), and
only advances after 15 ticks — the page dwell is `fps * 3`, not
`fps * page_seconds` with `page_seconds = 2`. -/
theorem page_dwell_counterexample :
    (txRun dwellCfg 10 (txPage 0 0)).1.currentIndex = 0 ∧
    (txRun dwellCfg 10 (txPage 0 0)).1.isTransmitting = true ∧
    (txRun dwellCfg 15 (txPage 0 0)).1.currentIndex = 16 := by
  decide

/-- Claim C5 (amended): each page frame is displayed for exactly
`page_dwell_ticks = fps * 3` ticks (`matrix_duration`, `page_seconds`
being fixed at 3 by the code) before the scheduler advances; with
`fps = 5` that is 15 ticks, not 10. -/
theorem page_dwell_amended (cfg : TxConfig) (i c : Nat) (hf : 1 ≤ cfg.fps)
    (hlt : i + cfg.adjusted < cfg.chunkCount) :
    (∀ k, k < cfg.fps * 3 →
      (txRun cfg k (txPage i c)).1.currentIndex = (i : Int) ∧
      (txRun cfg k (txPage i c)).1.isTransmitting = true) ∧
    (txRun cfg (cfg.fps * 3) (txPage i c)).1 = txPage (i + cfg.adjusted) c ∧
    (txRun cfg (cfg.fps * 3) (txPage i c)).2 = txPageEvents cfg i c := by
  refine ⟨fun k hk => ?_, by rw [txRun_page_next cfg i c hf hlt],
    by rw [txRun_page_next cfg i c hf hlt]⟩
  match k with
  | 0 => exact ⟨rfl, rfl⟩
  | m + 1 =>
      have : (txRun cfg (m + 1) (txPage i c)).1 = txPageMid i (m + 1) c := by
        rw [show m + 1 = 1 + m by omega, txRun_add]
        rw [show txRun cfg 1 (txPage i c) =
            ((txStep cfg (txPage i c)).1, (txStep cfg (txPage i c)).2 ++ []) from rfl]
        rw [txStep_page_start cfg i c (by omega)]
        simp only
        rw [txRun_page_stay cfg i c m 1 (by omega) (by omega)]
      rw [this]
      exact ⟨rfl, rfl⟩

theorem page_dwell_amended_witness :
    (txRun dwellCfg 7 (txPage 0 0)).1.currentIndex = 0 ∧
    (txRun dwellCfg 15 (txPage 0 0)).1 = txPage 16 0 := by
  have h := page_dwell_amended dwellCfg 0 0 (by decide) (by decide)
  exact ⟨(h.1 7 (by decide)).1, h.2.1⟩

/-- The configuration of the progress-report counterexample: `fps = 1`,
capacity 16, 20 chunks (2 pages), single cycle. -/
def reportCfg : TxConfig :=
  { fps := 1, adjusted := 16, chunkCount := 20, singleCycle := true }

/-- Claim C6 counterexample: with 20 chunks and capacity 16 the only
progress report for page 1 of 2 carries the percentage
`chunk_end / chunk_count * 100 = 80`, not `n / total_pages * 100 = 50`,
and it is emitted when the page is first displayed, not on dwell
expiry. -/
theorem progress_report_counterexample :
    (txRun reportCfg 20 txInit).2 =
      [TxEvent.displayHeader,
       TxEvent.displayMatrix 0,
       TxEvent.progress (TxPct.ratio 16 20) (TxStatus.page 1 2 1 16 20),
       TxEvent.displayMatrix 16,
       TxEvent.progress (TxPct.ratio 20 20) (TxStatus.page 2 2 17 20 20),
       TxEvent.progress TxPct.full TxStatus.done] ∧
    (TxPct.ratio 16 20).toQ = 80 ∧
    (80 : ℚ) ≠ (1 : ℚ) / 2 * 100 := by
  refine ⟨by decide, by norm_num [TxPct.toQ], by norm_num⟩

/-- Claim C6 (amended): the progress report for the page starting at
chunk `i` is emitted on the tick that first displays that page, with
percentage `min(i + capacity, chunk_count) / chunk_count * 100` — the
fraction of chunks transmitted through this page, not the fraction of
pages — and a status naming the page number, the total page count, the
1-based chunk range the page carries and the chunk count. -/
theorem progress_report_amended (cfg : TxConfig) (i c : Nat)
    (hf : 1 ≤ cfg.fps) (hs : cfg.singleCycle = true) :
    txStep cfg (txPage i c) =
      (txPageMid i 1 c,
       [TxEvent.displayMatrix i,
        TxEvent.progress
          (TxPct.ratio (min (i + cfg.adjusted) cfg.chunkCount) cfg.chunkCount)
          (TxStatus.page (i / cfg.adjusted + 1) (ceilDiv cfg.chunkCount cfg.adjusted)
            (i + 1) (min (i + cfg.adjusted) cfg.chunkCount) cfg.chunkCount)]) ∧
    (TxPct.ratio (min (i + cfg.adjusted) cfg.chunkCount) cfg.chunkCount).toQ =
      ((min (i + cfg.adjusted) cfg.chunkCount : ℚ) / (cfg.chunkCount : ℚ) * 100) := by
  constructor
  · rw [txStep_page_start cfg i c (by omega)]
    rw [txPageEvents, if_pos (by rw [hs])]
  · simp [TxPct.toQ, Nat.cast_min]

theorem progress_report_amended_witness :
    txStep reportCfg (txPage 0 0) =
      (txPageMid 0 1 0,
       [TxEvent.displayMatrix 0,
        TxEvent.progress (TxPct.ratio (min (0 + 16) 20) 20)
          (TxStatus.page (0 / 16 + 1) (ceilDiv 20 16) (0 + 1) (min (0 + 16) 20) 20)]) ∧
    (TxPct.ratio (min (0 + 16) 20) 20).toQ =
      ((min (0 + 16) 20 : ℚ) / (20 : ℚ) * 100) :=
  progress_report_amended reportCfg 0 0 (by decide) rfl

/-- The page frames displayed in an event trace, in display order. -/
def pageDisplays (evs : List TxEvent) : List Nat :=
  evs.filterMap (fun e => match e with
    | .displayMatrix i => some i
    | _ => none)

/-- The loop state after a three-page single-cycle run: stopped, one
completed cycle. -/
def txStop3 (cfg : TxConfig) : TxState :=
  { isTransmitting := false
    currentIndex := ((cfg.adjusted + cfg.adjusted + cfg.adjusted : Nat) : Int)
    headerCount := 0
    matrixCount := 0
    cycleCount := 1 }

/-- The full event trace of a three-page single-cycle run of the loop. -/
def txEvents3 (cfg : TxConfig) : List TxEvent :=
  TxEvent.displayHeader ::
    (txPageEvents cfg 0 0 ++
      (txPageEvents cfg cfg.adjusted 0 ++
        (txPageEvents cfg (cfg.adjusted + cfg.adjusted) 0 ++
          [TxEvent.progress TxPct.full TxStatus.done])))

theorem txRun_three_pages (cfg : TxConfig)
    (hs : cfg.singleCycle = true) (hf : 1 ≤ cfg.fps)
    (h2a : cfg.adjusted + cfg.adjusted < cfg.chunkCount)
    (h3a : cfg.chunkCount ≤ cfg.adjusted + cfg.adjusted + cfg.adjusted) :
    txRun cfg (cfg.fps * 2 + (cfg.fps * 3 + (cfg.fps * 3 + cfg.fps * 3))) txInit =
      (txStop3 cfg, txEvents3 cfg) := by
  rw [txRun_add, txInit_eq, txRun_header cfg 0 hf]
  simp only
  rw [txRun_add, txRun_page_next cfg 0 0 hf (by omega)]
  simp only
  rw [show (0 : Nat) + cfg.adjusted = cfg.adjusted from Nat.zero_add _]
  rw [txRun_add, txRun_page_next cfg cfg.adjusted 0 hf (by omega)]
  simp only
  rw [txRun_page_stop cfg (cfg.adjusted + cfg.adjusted) 0 hf (by omega) hs]
  simp [txStop3, txEvents3]

theorem txRun_three_pages_at (cfg : TxConfig)
    (hs : cfg.singleCycle = true) (hf : 1 ≤ cfg.fps)
    (h2a : cfg.adjusted + cfg.adjusted < cfg.chunkCount)
    (h3a : cfg.chunkCount ≤ cfg.adjusted + cfg.adjusted + cfg.adjusted)
    (n : Nat) (hn : cfg.fps * 11 ≤ n) :
    txRun cfg n txInit = (txStop3 cfg, txEvents3 cfg) := by
  obtain ⟨k, rfl⟩ : ∃ k,
      n = cfg.fps * 2 + (cfg.fps * 3 + (cfg.fps * 3 + cfg.fps * 3)) + k :=
    ⟨n - cfg.fps * 11, by omega⟩
  rw [txRun_add, txRun_three_pages cfg hs hf h2a h3a]
  simp only
  rw [txRun_stopped cfg k (txStop3 cfg) rfl]
  simp

theorem pageDisplays_txEvents3 (cfg : TxConfig) :
    pageDisplays (txEvents3 cfg) =
      [0, cfg.adjusted, cfg.adjusted + cfg.adjusted] := by
  simp [pageDisplays, txEvents3, txPageEvents]

theorem pageDisplays_append (a b : List TxEvent) :
    pageDisplays (a ++ b) = pageDisplays a ++ pageDisplays b := by
  simp [pageDisplays]

/-- In the session wrapper the extra control/header frames contribute no
page display. -/
theorem pageDisplays_txSession (cfg : TxConfig) (n : Nat) :
    pageDisplays (txSession cfg n).2 = pageDisplays (txRun cfg n txInit).2 := by
  rw [txSession]
  by_cases h : (txRun cfg n txInit).1.isTransmitting
  · rw [if_pos h]
    simp [pageDisplays]
  · rw [if_neg h]
    simp [pageDisplays]

/-- Claim C7: with three pages and single-cycle mode, the scheduler passes
exactly three times through the page state — displaying pages starting at
chunks `0`, `adjusted` and `2·adjusted` once each — then stops with the
end-marker control frame and the 100 % completion report, its cycle
counter ending at exactly 1; no fuel ever yields a fourth page display. -/
theorem single_cycle_termination (cfg : TxConfig)
    (hs : cfg.singleCycle = true) (hf : 1 ≤ cfg.fps) (ha : 1 ≤ cfg.adjusted)
    (hp : ceilDiv cfg.chunkCount cfg.adjusted = 3) :
    (∀ n, cfg.fps * 11 ≤ n →
      (txSession cfg n).1.isTransmitting = false ∧
      (txSession cfg n).1.cycleCount = 1 ∧
      pageDisplays (txSession cfg n).2 =
        [0, cfg.adjusted, cfg.adjusted + cfg.adjusted] ∧
      TxEvent.progress TxPct.full TxStatus.done ∈ (txSession cfg n).2 ∧
      TxPct.full.toQ = 100 ∧
      TxEvent.displayControl "recording_end" ∈ (txSession cfg n).2) ∧
    (∀ n, (pageDisplays (txSession cfg n).2).length ≤ 3) := by
  have hbounds : cfg.adjusted + cfg.adjusted < cfg.chunkCount ∧
      cfg.chunkCount ≤ cfg.adjusted + cfg.adjusted + cfg.adjusted := by
    rw [ceilDiv] at hp
    have hlo : 3 * cfg.adjusted ≤ cfg.chunkCount + cfg.adjusted - 1 :=
      (Nat.le_div_iff_mul_le (by omega)).mp (by omega)
    have hhi : cfg.chunkCount + cfg.adjusted - 1 < 4 * cfg.adjusted :=
      (Nat.div_lt_iff_lt_mul (by omega)).mp (by omega)
    omega
  constructor
  · intro n hn
    have hrun := txRun_three_pages_at cfg hs hf hbounds.1 hbounds.2 n hn
    rw [txSession, hrun]
    rw [if_neg (by simp [txStop3])]
    refine ⟨rfl, rfl, ?_, ?_, rfl, ?_⟩
    · simp only [pageDisplays_append]
      rw [show (TxEvent.displayControl "recording_start" :: txEvents3 cfg) =
        [TxEvent.displayControl "recording_start"] ++ txEvents3 cfg from rfl]
      rw [pageDisplays_append, pageDisplays_txEvents3]
      simp [pageDisplays]
    · simp [txEvents3]
    · simp
  · intro n
    rw [pageDisplays_txSession]
    by_cases hn : cfg.fps * 11 ≤ n
    · rw [txRun_three_pages_at cfg hs hf hbounds.1 hbounds.2 n hn]
      rw [show (txStop3 cfg, txEvents3 cfg).2 = txEvents3 cfg from rfl,
        pageDisplays_txEvents3]
      simp
    · have hsplit : cfg.fps * 2 + (cfg.fps * 3 + (cfg.fps * 3 + cfg.fps * 3)) =
          n + (cfg.fps * 11 - n) := by omega
      have h3 := txRun_three_pages cfg hs hf hbounds.1 hbounds.2
      rw [hsplit, txRun_add] at h3
      have hev : txEvents3 cfg = (txRun cfg n txInit).2 ++
          (txRun cfg (cfg.fps * 11 - n) (txRun cfg n txInit).1).2 :=
        (congrArg Prod.snd h3).symm
      have : (pageDisplays (txEvents3 cfg)).length =
          (pageDisplays (txRun cfg n txInit).2).length +
          (pageDisplays (txRun cfg (cfg.fps * 11 - n) (txRun cfg n txInit).1).2).length := by
        rw [hev, pageDisplays_append, List.length_append]
      rw [pageDisplays_txEvents3] at this
      simp at this
      omega

/-- The configuration of the three-page single-cycle example: `fps = 1`,
capacity 2, 5 chunks (3 pages). -/
def threePageCfg : TxConfig :=
  { fps := 1, adjusted := 2, chunkCount := 5, singleCycle := true }

theorem single_cycle_termination_witness :
    (txSession threePageCfg 11).1.isTransmitting = false ∧
    (txSession threePageCfg 11).1.cycleCount = 1 ∧
    pageDisplays (txSession threePageCfg 11).2 = [0, 2, 2 + 2] ∧
    TxEvent.progress TxPct.full TxStatus.done ∈ (txSession threePageCfg 11).2 ∧
    TxEvent.displayControl "recording_end" ∈ (txSession threePageCfg 11).2 ∧
    (pageDisplays (txSession threePageCfg 30).2).length ≤ 3 := by
  have h := single_cycle_termination threePageCfg rfl (by decide) (by decide) (by decide)
  have h11 := h.1 11 (by decide)
  exact ⟨h11.1, h11.2.1, h11.2.2.1, h11.2.2.2.1, h11.2.2.2.2.2, h.2 30⟩

end QrTransfer
